import Mathlib

/-!
Verification of the Synergy ID allocator and inventory explosion engine of the
synidb repository, as a shallow embedding of the Python source.

Source files embedded here:
- `src/fastapi/routes_synergy.py` : `fmt_synergy`, `_get_next_synergy_code`,
  `_get_true_max_seq`, `synergy_preview`, `mint_synergy`, `explode_by_line`,
  `prefix_peek`, `prefix_reset`, `prefix_set`.
- `src/main.py` : the duplicated `fmt_synergy` (4-digit padding), `prefix_set`
  (no safe-minimum validation) and `_take_synergy` (no recovery scan).
- `src/scraper-py/app.py` : the third `fmt_synergy` copy (4-digit padding).

Modelling conventions:
- Database tables are Lean lists; UUID keys are modelled as `Nat`.
- `id_prefix_counters` is an association list keyed by prefix;
  `INSERT .. ON CONFLICT DO UPDATE` is `upsertCounter`.
- `inventory_items` carries both the code column `synergy_code` (the column
  every item insert in the tree writes) and a distinct legacy `synergy_id`
  column (`routes_inventory.py` line 248 and `routes_photos.py` line 241
  treat the two as different columns of the same table, dispatching
  UUID-shaped keys to `synergy_id` and codes to `synergy_code`; nothing ever
  writes codes into `synergy_id`).  The recovery scans of
  `_get_next_synergy_code`, `_get_true_max_seq` and `synergy_preview` query
  `synergy_id` on BOTH tables, so their item-table leg reads the legacy
  column and can never observe item codes; the embedding models this
  faithfully (`itemsMaxSeq` reads the `synergyId` field, not
  `synergyCode`).
- `CAST(NULLIF(SPLIT_PART(s,'-',2),'') AS INTEGER)` over rows matching
  `LIKE '{pfx}-%'` is modelled by `seqOfSynergyId`: a non-numeric second field
  yields `none` (excluded from the maximum).
- `ORDER BY` is insertion sort over the given keys; SQL timestamps are `Nat`.
- An exception escaping a `with db() as (con, cur)` block rolls the
  transaction back (`db_utils.py`), so a failing operation leaves the modelled
  state unchanged; the `run...` wrappers realise this.
-/

/-- `fmt_synergy` of `src/fastapi/routes_synergy.py`:
`f"{prefix}-{str(int(seq)).zfill(5)}"`.  `zfill` left-pads with `'0'` to the
requested width. -/
def zfill (w : Nat) (s : String) : String :=
  String.mk (List.replicate (w - s.length) '0') ++ s

def fmt_synergy (pfx : String) (seq : Nat) : String :=
  pfx ++ "-" ++ zfill 5 (Nat.repr seq)

/-- `fmt_synergy` of `src/main.py` (line 1247): identical except for the
4-digit padding: `f"{prefix}-{str(int(seq)).zfill(4)}"`. -/
def fmt_synergy_main (pfx : String) (seq : Nat) : String :=
  pfx ++ "-" ++ zfill 4 (Nat.repr seq)

/-- `fmt_synergy` of `src/scraper-py/app.py` (line 156), again with
4-digit padding. -/
def fmt_synergy_scraper (pfx : String) (seq : Nat) : String :=
  pfx ++ "-" ++ zfill 4 (Nat.repr seq)

/-- The decimal digit characters of `n`, most significant first; the
specification of `Nat.repr`. -/
def decChars (n : Nat) : List Char :=
  if n = 0 then ['0'] else ((Nat.digits 10 n).reverse.map Nat.digitChar)

/-- Numeric value of a decimal digit character. -/
def digitVal (c : Char) : Nat := c.toNat - 48

/-- Decode a zero-padded big-endian decimal digit string. -/
def padVal (l : List Char) : Nat := Nat.ofDigits 10 (l.reverse.map digitVal)

/-- A row of `po_lines`.  `id`, `purchase_order_id` and `category_guess`
(UUIDs in the database) are modelled as `Nat`; `created_at` as a `Nat`
timestamp.  `raw_json` is abstracted into the two values the explosion engine
extracts from it: `raw.get("specs") or {}` (serialised) and
`raw.get("item_notes")`. -/
structure PoLine where
  id : Nat
  createdAt : Nat
  purchaseOrderId : Nat
  qty : Option Nat
  unitCost : Option Int
  msrp : Option Int
  categoryGuess : Option Nat
  synergyId : Option String
  rawSpecs : String := "{}"
  rawItemNotes : Option String := none
  deriving DecidableEq

/-- A row of `inventory_items`.  `synergyCode` is the code column
(`synergy_code`) the explosion inserts write; `synergyId` is the distinct
legacy `synergy_id` column of the same table (UUID-bearing, never written
with codes by this subsystem, NULL on every inserted row) — it is the
column the recovery scans' item-table query actually reads. -/
structure InventoryItem where
  synergyCode : String
  purchaseOrderId : Nat
  poLineId : Nat
  categoryId : Nat
  costUnit : Int
  msrp : Int
  status : String
  specs : String
  testerComment : Option String
  synergyId : Option String := none
  deriving DecidableEq

/-- A row of `synergy_id_events` (the audit log, `log_synergy_event`).
The `jsonb` meta payload is modelled as a key/value list. -/
structure SynergyEvent where
  eventType : String
  pfx : String
  seq : Nat
  code : String
  actorName : Option String := none
  poId : Option Nat := none
  poLineId : Option Nat := none
  inventoryId : Option Nat := none
  meta : List (String × String) := []
  deriving DecidableEq

/-- The database state visible to this subsystem: `id_prefix_counters`,
`po_lines`, `inventory_items`, `synergy_id_events` and the `categories`
table restricted to the `id → prefix` mapping the SQL joins use. -/
structure DbState where
  counters : List (String × Nat)
  poLines : List PoLine
  items : List InventoryItem
  events : List SynergyEvent
  categories : List (Nat × String)
  deriving DecidableEq

/-- `SELECT next_seq FROM id_prefix_counters WHERE prefix = p` (prefix is the
primary key, so the first match is the row). -/
def lookupCounter : List (String × Nat) → String → Option Nat
  | [], _ => none
  | e :: es, p => if e.1 = p then some e.2 else lookupCounter es p

/-- `INSERT INTO id_prefix_counters(prefix, next_seq) VALUES (p, v)
ON CONFLICT (prefix) DO UPDATE SET next_seq = EXCLUDED.next_seq`. -/
def upsertCounter : List (String × Nat) → String → Nat → List (String × Nat)
  | [], p, v => [(p, v)]
  | e :: es, p, v => if e.1 = p then (p, v) :: es else e :: upsertCounter es p v

/-- `SELECT prefix FROM categories WHERE id = c`. -/
def lookupCat : List (Nat × String) → Nat → Option String
  | [], _ => none
  | e :: es, c => if e.1 = c then some e.2 else lookupCat es c

/-- Split a character list at `'-'` (the splitting underlying SQL
`SPLIT_PART(s, '-', n)`): always at least one field, empty fields kept. -/
def splitDash : List Char → List (List Char)
  | [] => [[]]
  | c :: cs =>
      let r := splitDash cs
      if c = '-' then [] :: r
      else
        match r with
        | [] => [[c]]
        | g :: gs => (c :: g) :: gs

/-- `SPLIT_PART(s, '-', 2)`: the second `'-'`-separated field, `""` when the
string has fewer than two fields. -/
def splitPart2 (s : String) : String :=
  match splitDash s.data with
  | _ :: x :: _ => String.mk x
  | _ => ""

def decValAux : List Char → Nat → Nat
  | [], acc => acc
  | c :: cs, acc => decValAux cs (acc * 10 + digitVal c)

/-- `CAST(text AS INTEGER)` on the non-negative decimal payloads of synergy
codes; a non-numeric field (an SQL cast error) is modelled as `none`. -/
def castInt? (l : List Char) : Option Nat :=
  if l.isEmpty then none
  else if l.all Char.isDigit then some (decValAux l 0) else none

/-- One scanned cell: the `WHERE synergy_id LIKE '{pfx}-%'` filter together
with `CAST(NULLIF(SPLIT_PART(synergy_id, '-', 2), '') AS INTEGER)`.
`none` stands for a filtered-out row or a NULL-valued expression. -/
def seqOfSynergyId (pfx : String) : Option String → Option Nat
  | none => none
  | some s =>
      if (pfx.data ++ ['-']).isPrefixOf s.data then
        let part := splitPart2 s
        if part = "" then none else castInt? part.data
      else none

/-- `COALESCE(MAX(...), 0)` over a column of parsed sequence values. -/
def foldMax (l : List (Option Nat)) : Nat :=
  l.foldr (fun o acc => match o with | none => acc | some v => Nat.max v acc) 0

/-- The `inventory_items` leg of the recovery scan: the query text is
`SELECT .. FROM inventory_items WHERE synergy_id LIKE ..`, so it reads the
legacy `synergy_id` column — NOT the code column `synergy_code` — and can
therefore never observe item codes. -/
def itemsMaxSeq (items : List InventoryItem) (pfx : String) : Nat :=
  foldMax (items.map (fun it => seqOfSynergyId pfx it.synergyId))

/-- The `po_lines` leg of the recovery scan (`po_lines.synergy_id` is the
line code column, so this leg does see line codes). -/
def linesMaxSeq (lines : List PoLine) (pfx : String) : Nat :=
  foldMax (lines.map (fun ln => seqOfSynergyId pfx ln.synergyId))

/-- `_get_true_max_seq` of `routes_synergy.py` (also the inline scan of
`_get_next_synergy_code` and of `synergy_preview.max_seq_for_prefix`):
`max` over both queried columns of the per-table `COALESCE(MAX(..), 0)`,
starting from `0`.  Because the item-table query reads the legacy
`synergy_id` column, item codes do not contribute. -/
def trueMaxSeq (st : DbState) (pfx : String) : Nat :=
  Nat.max (itemsMaxSeq st.items pfx) (linesMaxSeq st.poLines pfx)

/-- Modelled from the spec: `true_max_seq` as the spec words it — "scanning
both the line table and the item table for codes matching `{prefix}-%`,
parsing the numeric suffix, taking the maximum, or 0 if none match" — i.e.
with the item leg reading the items' code column.  The program's
`_get_true_max_seq` (`trueMaxSeq` above) differs: its item-table query
reads the legacy `synergy_id` column instead. -/
def specTrueMaxSeq (st : DbState) (pfx : String) : Nat :=
  Nat.max
    (foldMax (st.items.map (fun it => seqOfSynergyId pfx (some it.synergyCode))))
    (linesMaxSeq st.poLines pfx)

/-- All sequence values actually present for a prefix across both tables
(item codes live in `synergy_code`, line codes in `po_lines.synergy_id`):
the multiset the spec's monotonicity invariant quantifies over. -/
def usedSeqs (st : DbState) (pfx : String) : List Nat :=
  (st.items.map (fun it => seqOfSynergyId pfx (some it.synergyCode))
    ++ st.poLines.map (fun ln => seqOfSynergyId pfx ln.synergyId)).filterMap
      (fun o => o)

/-- The sequence values present in the `po_lines` table alone (the part of
`usedSeqs` the program's scans can actually see). -/
def usedLineSeqs (st : DbState) (pfx : String) : List Nat :=
  (st.poLines.map (fun ln => seqOfSynergyId pfx ln.synergyId)).filterMap
    (fun o => o)

/-- The spec's monotonicity invariant at a prefix, as a checkable predicate:
whenever a counter row exists, its `next_seq` strictly exceeds every
sequence value present in either table for that prefix. -/
def counterAboveUsed (st : DbState) (pfx : String) : Bool :=
  match lookupCounter st.counters pfx with
  | none => true
  | some v => (usedSeqs st pfx).all (fun s => Nat.blt s v)

/-- Step 1 of `_get_next_synergy_code`: the `SELECT .. FOR UPDATE` on the
counter row, falling back to the recovery scan plus one when no row exists
(`row and row.get("next_seq") is not None` is `lookupCounter = some`, the
stored column being NOT NULL). -/
def reservedSeq (st : DbState) (pfx : String) : Nat :=
  match lookupCounter st.counters pfx with
  | some v => v
  | none => trueMaxSeq st pfx + 1

/-- `_get_next_synergy_code(cur, prefix, ...)` of `routes_synergy.py`.
`auditOk = false` is the run in which the `log_synergy_event` INSERT raises:
the `try/except` swallows the exception, so only the event append is lost.
Returns the new code and the post-state. -/
def getNextSynergyCode (st : DbState) (pfx : String) (auditOk : Bool)
    (actorName : Option String) (poId poLineId inventoryId : Option Nat) :
    String × DbState :=
  let next_seq := reservedSeq st pfx
  let newCode := fmt_synergy pfx next_seq
  let st1 : DbState :=
    { st with counters := upsertCounter st.counters pfx (next_seq + 1) }
  let st2 : DbState :=
    if auditOk then
      { st1 with events := st1.events ++
          [{ eventType := "mint", pfx := pfx, seq := next_seq, code := newCode,
             actorName := actorName, poId := poId, poLineId := poLineId,
             inventoryId := inventoryId,
             meta := [("source", "_get_next_synergy_code")] }] }
    else st1
  (newCode, st2)

/-- The whole allocation as one transaction: when the counter store
read/write itself raises (`counterOk = false`), the exception escapes
`_get_next_synergy_code`, the `db()` context manager of `db_utils.py` rolls
the transaction back, and no state change survives. -/
def getNextSynergyCodeTx (st : DbState) (pfx : String)
    (counterOk auditOk : Bool) : Except String (String × DbState) :=
  if counterOk then
    Except.ok (getNextSynergyCode st pfx auditOk none none none none)
  else Except.error "counter store unreachable"

/-- Observed outcome of one allocation request: on error the transaction is
rolled back, so the caller sees no code and the original state. -/
def runAlloc (st : DbState) (pfx : String) (counterOk auditOk : Bool) :
    Option String × DbState :=
  match getNextSynergyCodeTx st pfx counterOk auditOk with
  | Except.ok (c, st') => (some c, st')
  | Except.error _ => (none, st)

/-- A sequence of successful `_get_next_synergy_code` calls, one per listed
prefix; returns the (prefix, code) pairs in call order and the final state. -/
def runAllocs (st : DbState) : List String → List (String × String) × DbState
  | [] => ([], st)
  | q :: qs =>
      let r := getNextSynergyCode st q true none none none none
      let rest := runAllocs r.2 qs
      ((q, r.1) :: rest.1, rest.2)

/-- The codes a trace of allocations returned for one prefix. -/
def codesFor (trace : List (String × String)) (pfx : String) : List String :=
  (trace.filter (fun e => e.1 == pfx)).map (fun e => e.2)

/-- Insert into a list sorted by `le` (used to model SQL `ORDER BY`). -/
def insertOrdered (le : α → α → Bool) (x : α) : List α → List α
  | [] => [x]
  | y :: ys => if le x y then x :: y :: ys else y :: insertOrdered le x ys

/-- Insertion sort; stable, total for a total `le`. -/
def sortOrdered (le : α → α → Bool) : List α → List α
  | [] => []
  | x :: xs => insertOrdered le x (sortOrdered le xs)

/-- `ORDER BY COALESCE(pl.created_at, NOW()) ASC, pl.id ASC` (a NULL
`created_at` is modelled as an always-present timestamp). -/
def lineLe (a b : PoLine) : Bool :=
  Nat.blt a.createdAt b.createdAt
    || (a.createdAt == b.createdAt && Nat.ble a.id b.id)

/-- `ORDER BY pl.id` (the explode-by-line ordering). -/
def lineIdLe (a b : PoLine) : Bool :=
  Nat.ble a.id b.id

/-- Python's `.strip()`: drop whitespace from both ends. -/
def stripStr (s : String) : String :=
  String.mk
    (((s.data.dropWhile Char.isWhitespace).reverse.dropWhile
        Char.isWhitespace).reverse)

/-- The `LEFT JOIN categories c ON c.id = pl.category_guess` prefix of a
line, with `COALESCE(c.prefix, '')` and Python's `.strip()` applied (the
value every caller computes before testing `if not prefix`). -/
def pfxOfLine (cats : List (Nat × String)) (ln : PoLine) : String :=
  stripStr
    (match ln.categoryGuess with
     | none => ""
     | some c => (lookupCat cats c).getD "")

/-- `int(r.get("qty") or 1) or 1` over the selected `qty` column (explode
selects `COALESCE(pl.qty, 1)` and then applies `int(ln["qty"] or 1)`; both
map NULL and 0 to 1). -/
def effQty : Option Nat → Nat
  | none => 1
  | some 0 => 1
  | some (n + 1) => n + 1

/-- One preview row of `synergy_preview`'s response. -/
structure PreviewEntry where
  lineId : Nat
  pfx : String
  qty : Nat
  codes : List String
  note : Option String
  deriving DecidableEq

/-- The lines `synergy_preview` selects: the requested ids of the purchase
order, in `created_at, id` order. -/
def previewRows (st : DbState) (po : Nat) (lineIds : List Nat) : List PoLine :=
  sortOrdered lineLe (st.poLines.filter
    (fun ln => ln.purchaseOrderId == po && lineIds.contains ln.id))

/-- The body of `synergy_preview`'s per-line loop.  The second component is
`seq_by_prefix`; `max_seq_for_prefix` returns the cached last-used sequence
when present and otherwise the two-table scan of the (unchanged) state, and
after a line the cache is set to `start + qty - 1`.  The code f-string
`f"{prefix}-{str(start + i).zfill(5)}"` is the `fmt_synergy` formula. -/
def previewStep (st : DbState)
    (acc : List PreviewEntry × List (String × Nat)) (ln : PoLine) :
    List PreviewEntry × List (String × Nat) :=
  let q := effQty ln.qty
  let p := pfxOfLine st.categories ln
  if p = "" then
    (acc.1 ++ [{ lineId := ln.id, pfx := "", qty := q, codes := [],
                 note := some "No category prefix; cannot preview." }], acc.2)
  else
    let base :=
      match lookupCounter acc.2 p with
      | some v => v
      | none => trueMaxSeq st p
    let start := base + 1
    let codes := (List.range q).map (fun i => fmt_synergy p (start + i))
    (acc.1 ++ [{ lineId := ln.id, pfx := p, qty := q, codes := codes,
                 note := none }],
     upsertCounter acc.2 p (start + q - 1))

/-- `synergy_preview` (`POST /pos/{po_id}/synergy_preview`): read-only; an
empty `line_ids` short-circuits to an empty preview list. -/
def synergyPreview (st : DbState) (po : Nat) (lineIds : List Nat) :
    List PreviewEntry :=
  if lineIds = [] then []
  else ((previewRows st po lineIds).foldl (previewStep st) ([], [])).1

/-- The `overwrite` branch of `mint_synergy`: clear `synergy_id` on the
given lines (or on every line of the purchase order when none are given). -/
def clearSynergy (lines : List PoLine) (po : Nat) (lineIds : List Nat) :
    List PoLine :=
  lines.map (fun ln =>
    if (match lineIds with
        | [] => ln.purchaseOrderId == po
        | _ => lineIds.contains ln.id) then
      { ln with synergyId := none }
    else ln)

/-- `UPDATE po_lines SET synergy_id = code WHERE id = lid`. -/
def setLineSynergy (lines : List PoLine) (lid : Nat) (code : String) :
    List PoLine :=
  lines.map (fun ln =>
    if ln.id == lid then { ln with synergyId := some code } else ln)

/-- The lines `mint_synergy` mints: unminted lines of the purchase order
(restricted to `line_ids` when non-empty), in `created_at, id` order. -/
def mintRows (st : DbState) (po : Nat) (lineIds : List Nat) : List PoLine :=
  sortOrdered lineLe (st.poLines.filter (fun ln =>
    ln.purchaseOrderId == po
      && (lineIds.isEmpty || lineIds.contains ln.id)
      && ln.synergyId.isNone))

/-- One iteration of `mint_synergy`'s loop: skip prefix-less lines, else
allocate one code and write it onto the line. -/
def mintStep (cats : List (Nat × String)) (acc : Nat × DbState) (ln : PoLine) :
    Nat × DbState :=
  let p := pfxOfLine cats ln
  if p = "" then acc
  else
    let r := getNextSynergyCode acc.2 p true none none none none
    (acc.1 + 1, { r.2 with poLines := setLineSynergy r.2.poLines ln.id r.1 })

/-- `mint_synergy` (`POST /pos/{po_id}/mint_synergy`): returns `updated`
and the post-state. -/
def mintSynergy (st : DbState) (po : Nat) (lineIds : List Nat)
    (overwrite : Bool) : Nat × DbState :=
  let st0 :=
    if overwrite then { st with poLines := clearSynergy st.poLines po lineIds }
    else st
  (mintRows st0 po lineIds).foldl (mintStep st0.categories) (0, st0)

/-- One selected line of `explode_by_line` (its SQL row after the category
join and Python-side parsing of `raw_json`). -/
structure ExplodeRow where
  id : Nat
  qty : Nat
  unitCost : Option Int
  msrp : Option Int
  categoryId : Option Nat
  pfx : String
  preMinted : Option String
  specs : String
  testerComment : Option String
  deriving DecidableEq

def toExplodeRow (cats : List (Nat × String)) (ln : PoLine) : ExplodeRow :=
  { id := ln.id, qty := effQty ln.qty, unitCost := ln.unitCost,
    msrp := ln.msrp, categoryId := ln.categoryGuess,
    pfx := pfxOfLine cats ln, preMinted := ln.synergyId,
    specs := ln.rawSpecs, testerComment := ln.rawItemNotes }

/-- The rows of `explode_by_line`'s line query (`WHERE purchase_order_id =
po ORDER BY pl.id`). -/
def explodeRows (st : DbState) (po : Nat) : List ExplodeRow :=
  (sortOrdered lineIdLe
      (st.poLines.filter (fun ln => ln.purchaseOrderId == po))).map
    (toExplodeRow st.categories)

/-- Step 1 of `explode_by_line`: `COUNT(*)` of existing items per line. -/
def countItemsForLine (items : List InventoryItem) (po lid : Nat) : Nat :=
  (items.filter
    (fun it => it.purchaseOrderId == po && it.poLineId == lid)).length

/-- Step 2 of `explode_by_line`: the set of active synergy codes of the
purchase order. -/
def itemCodesForPo (items : List InventoryItem) (po : Nat) : List String :=
  (items.filter (fun it => it.purchaseOrderId == po)).map
    (fun it => it.synergyCode)

/-- The `INSERT INTO public.inventory_items .. VALUES (.., 'INTAKE', ..)`
of `explode_by_line`, with `ln["unit_cost"] or 0` and `ln["msrp"] or 0`. -/
def mkItem (code : String) (po : Nat) (row : ExplodeRow) (cid : Nat) :
    InventoryItem :=
  { synergyCode := code, purchaseOrderId := po, poLineId := row.id,
    categoryId := cid, costUnit := row.unitCost.getD 0,
    msrp := row.msrp.getD 0, status := "INTAKE", specs := row.specs,
    testerComment := row.testerComment }

/-- Accumulator of `explode_by_line`'s loop: `created`, `skipped`, the
mutable `existing_codes` set, and the evolving database state. -/
structure ExplodeAcc where
  created : Nat
  skipped : Nat
  codes : List String
  st : DbState
  deriving DecidableEq

/-- One `for i in range(need)` iteration: reuse the line's pre-minted code
when it is not yet consumed by any item, otherwise allocate a fresh code;
either way insert exactly one item. -/
def explodeUnit (po : Nat) (row : ExplodeRow) (cid : Nat) (acc : ExplodeAcc) :
    ExplodeAcc :=
  match row.preMinted with
  | some pm =>
      if acc.codes.contains pm then
        let r := getNextSynergyCode acc.st row.pfx true none none none none
        { acc with created := acc.created + 1,
                   st := { r.2 with items := r.2.items ++ [mkItem r.1 po row cid] } }
      else
        { acc with created := acc.created + 1, codes := acc.codes ++ [pm],
                   st := { acc.st with
                             items := acc.st.items ++ [mkItem pm po row cid] } }
  | none =>
      let r := getNextSynergyCode acc.st row.pfx true none none none none
      { acc with created := acc.created + 1,
                 st := { r.2 with items := r.2.items ++ [mkItem r.1 po row cid] } }

/-- `for i in range(need)`. -/
def explodeUnits (po : Nat) (row : ExplodeRow) (cid : Nat) :
    Nat → ExplodeAcc → ExplodeAcc
  | 0, acc => acc
  | n + 1, acc => explodeUnits po row cid n (explodeUnit po row cid acc)

/-- One line of `explode_by_line`'s loop.  `st0` is the state the
`existing_counts` snapshot of step 1 was taken from;
`need = max(0, qty - have)` and a line with `need <= 0`, like a line
without a category or prefix, only adds its quantity to `skipped`. -/
def explodeLineStep (st0 : DbState) (po : Nat) (acc : ExplodeAcc)
    (row : ExplodeRow) : ExplodeAcc :=
  match row.categoryId with
  | none => { acc with skipped := acc.skipped + row.qty }
  | some cid =>
      if row.pfx = "" then { acc with skipped := acc.skipped + row.qty }
      else if max 0 ((row.qty : Int)
              - (countItemsForLine st0.items po row.id : Int)) ≤ 0 then
        { acc with skipped := acc.skipped + row.qty }
      else
        explodeUnits po row cid
          (max 0 ((row.qty : Int)
            - (countItemsForLine st0.items po row.id : Int))).toNat acc

/-- The `{created, skipped, state}` summary `explode_by_line` returns. -/
structure ExplodeResult where
  created : Nat
  skipped : Nat
  state : String
  deriving DecidableEq

/-- `explode_by_line` (`POST /imports/{po_id}/explode-by-line`). -/
def explodeByLine (st : DbState) (po : Nat) : ExplodeResult × DbState :=
  let init : ExplodeAcc :=
    { created := 0, skipped := 0, codes := itemCodesForPo st.items po,
      st := st }
  let fin := (explodeRows st po).foldl (explodeLineStep st po) init
  ({ created := fin.created, skipped := fin.skipped,
     state :=
       if fin.created > 0 && fin.skipped == 0 then "done"
       else if fin.created > 0 then "partial" else "already" },
   fin.st)

/-- Python runtime errors the embedded endpoints can surface. -/
inductive PyError where
  | nameError (name : String)
  deriving DecidableEq

/-- `prefix_peek` (`GET /prefix/{prefix}/peek`, routes_synergy.py lines
489-493).  Its body evaluates `_get_starting_seq_for_prefix(cur, prefix)`,
and no function of that name is defined anywhere in the source tree, so the
first expression of the body raises `NameError` on every call and the
endpoint never builds a response. -/
def prefixPeek (_st : DbState) (_pfx : String) : Except PyError String :=
  Except.error (PyError.nameError "_get_starting_seq_for_prefix")

/-- `prefix_reset` (`POST /synergy-id/prefix/{prefix}/reset`): recomputes
the true max and writes `next_seq = true_max_seq + 1`, logging a
`reset_to_default` event.  Returns the new `next`. -/
def prefixReset (st : DbState) (pfx : String) (actor : Option String) :
    Nat × DbState :=
  let safeNext := trueMaxSeq st pfx + 1
  (safeNext,
   { st with
       counters := upsertCounter st.counters pfx safeNext,
       events := st.events ++
         [{ eventType := "reset_to_default", pfx := pfx, seq := safeNext,
            code := fmt_synergy pfx safeNext, actorName := actor,
            meta := [("safe_next", Nat.repr safeNext)] }] })

/-- The two rejection shapes of `prefix_set` in routes_synergy.py: the plain
`400` for a non-positive `next`, and the safe-minimum rejection whose detail
payload carries `safe_next`. -/
inductive SetError where
  | badRequest (msg : String)
  | belowSafeMin (message : String) (safeNext : Nat)
  deriving DecidableEq

/-- `old_next or 1` over `int(row.get("next_seq") or 0)`, then
`max(true_max_seq + 1, ...)`: the minimum safe manual value. -/
def safeMinNext (st : DbState) (pfx : String) : Nat :=
  Nat.max (trueMaxSeq st pfx + 1)
    (if (lookupCounter st.counters pfx).getD 0 = 0 then 1
     else (lookupCounter st.counters pfx).getD 0)

/-- The rejection message f-string of `prefix_set` in routes_synergy.py. -/
def setRejectMessage (st : DbState) (pfx : String) (n : Nat) : String :=
  "Cannot set next sequence for prefix " ++ pfx ++ " to " ++ Nat.repr n
    ++ " because IDs up to " ++ Nat.repr (safeMinNext st pfx - 1)
    ++ " may already exist. The minimum safe value is "
    ++ Nat.repr (safeMinNext st pfx) ++ "."

/-- `prefix_set` of `src/fastapi/routes_synergy.py`
(`POST /prefix/{prefix}/set`): rejects `next < 1`; rejects `next` below the
safe minimum with the computed `safe_next` in the detail payload; otherwise
upserts the counter and logs a `manual_set_next` event. -/
def prefixSetRoutes (st : DbState) (pfx : String) (nxt : Int)
    (actor reason : Option String) : Except SetError (Nat × DbState) :=
  if nxt < 1 then Except.error (SetError.badRequest "next must be >= 1")
  else if nxt.toNat < safeMinNext st pfx then
    Except.error (SetError.belowSafeMin (setRejectMessage st pfx nxt.toNat)
      (safeMinNext st pfx))
  else
    Except.ok (nxt.toNat,
      { st with
          counters := upsertCounter st.counters pfx nxt.toNat,
          events := st.events ++
            [{ eventType := "manual_set_next", pfx := pfx, seq := nxt.toNat,
               code := fmt_synergy pfx nxt.toNat, actorName := actor,
               meta := [("old_next",
                           Nat.repr ((lookupCounter st.counters pfx).getD 0)),
                        ("new_next", Nat.repr nxt.toNat),
                        ("reason", reason.getD "")] }] })

/-- Observed outcome of one routes-level manual set: `HTTPException` escapes
the `db()` block, which rolls back, so a rejected request leaves the state
unchanged. -/
def runPrefixSetRoutes (st : DbState) (pfx : String) (nxt : Int)
    (actor reason : Option String) : Except SetError Nat × DbState :=
  match prefixSetRoutes st pfx nxt actor reason with
  | Except.ok (v, st') => (Except.ok v, st')
  | Except.error e => (Except.error e, st)

/-- The `safe_next` value of a safe-minimum rejection payload, if any. -/
def rejectedSafeNext : Except SetError Nat → Option Nat
  | Except.error (SetError.belowSafeMin _ v) => some v
  | _ => none

/-- `prefix_set` of `src/main.py` (lines 4923-4939): the duplicated manual
set endpoint.  It only checks `next >= 1` and then upserts the counter —
no recovery scan, no safe-minimum comparison, no audit log. -/
def prefixSetMain (st : DbState) (pfx : String) (nxt : Int) :
    Except String (Nat × DbState) :=
  if nxt < 1 then Except.error "next must be >=1"
  else
    Except.ok (nxt.toNat,
      { st with counters := upsertCounter st.counters pfx nxt.toNat })

/-- `_take_synergy` of `src/main.py` (lines 5189-5198), the duplicated
allocator: bumps an existing counter, and with no counter row reserves `1`
and inserts `next_seq = 2` without any recovery scan, formatting with the
4-digit `fmt_synergy` of `main.py`. -/
def takeSynergyMain (st : DbState) (pfx : String) : String × DbState :=
  match lookupCounter st.counters pfx with
  | some v =>
      (fmt_synergy_main pfx v,
       { st with counters := upsertCounter st.counters pfx (v + 1) })
  | none =>
      (fmt_synergy_main pfx 1,
       { st with counters := st.counters ++ [(pfx, 2)] })

/-- A minimal item row holding a given code (for concrete scenarios). -/
def simpleItem (code : String) : InventoryItem :=
  { synergyCode := code, purchaseOrderId := 1, poLineId := 1, categoryId := 1,
    costUnit := 0, msrp := 0, status := "INTAKE", specs := "{}",
    testerComment := none }

/-- A minimal minted line row holding a given code (for concrete
scenarios). -/
def simpleLine (lid : Nat) (code : String) : PoLine :=
  { id := lid, createdAt := lid, purchaseOrderId := 1, qty := some 1,
    unitCost := none, msrp := none, categoryGuess := some 1,
    synergyId := some code }

/-- Prefix `LAP` with no counter row and codes `LAP-00001` … `LAP-00007`
scattered across both tables (`LAP-00001`-`LAP-00004` on items,
`LAP-00005`-`LAP-00007` on lines). -/
def stLap : DbState :=
  { counters := [],
    poLines := [simpleLine 5 "LAP-00005", simpleLine 6 "LAP-00006",
                simpleLine 7 "LAP-00007"],
    items := [simpleItem "LAP-00001", simpleItem "LAP-00002",
              simpleItem "LAP-00003", simpleItem "LAP-00004"],
    events := [], categories := [(1, "LAP")] }

/-- Prefix `LAP` with the code `LAP-00010` held only on an item (in its
`synergy_code` column) and no counter row: the spec's two-table maximum is
10, but the program's scan — reading the items' legacy `synergy_id` column —
computes 0. -/
def stLap10 : DbState :=
  { counters := [], poLines := [], items := [simpleItem "LAP-00010"],
    events := [], categories := [(1, "LAP")] }

/-- Prefix `LAP` with the code `LAP-00010` held on a po_line and no counter
row: here the program's `_get_true_max_seq` does return 10. -/
def stLine10 : DbState :=
  { counters := [], poLines := [simpleLine 10 "LAP-00010"], items := [],
    events := [], categories := [(1, "LAP")] }

/-- Prefix `LAP` whose only code, `LAP-00009`, lives on an item's
`synergy_code` column; no lines, no counter row. -/
def stItem9 : DbState :=
  { counters := [], poLines := [], items := [simpleItem "LAP-00009"],
    events := [], categories := [(1, "LAP")] }

/-- Prefix `LAP` with an existing counter row `next_seq = 11` above the one
used sequence 10 (held as an item code). -/
def stCnt11 : DbState :=
  { counters := [("LAP", 11)], poLines := [], items := [simpleItem "LAP-00010"],
    events := [], categories := [(1, "LAP")] }

/-- The worked example: fresh prefix `GEN` (no counter row, no existing
codes), purchase order 10 with two lines of qty 2 and 3. -/
def stGen : DbState :=
  { counters := [],
    poLines :=
      [{ id := 1, createdAt := 1, purchaseOrderId := 10, qty := some 2,
         unitCost := some 5, msrp := some 20, categoryGuess := some 1,
         synergyId := none },
       { id := 2, createdAt := 2, purchaseOrderId := 10, qty := some 3,
         unitCost := some 7, msrp := some 30, categoryGuess := some 1,
         synergyId := none }],
    items := [], events := [], categories := [(1, "GEN")] }

/-- `stGen` with an extra category-less line (id 3, qty 4) in the same
purchase order. -/
def stGenBad : DbState :=
  { stGen with
      poLines := stGen.poLines ++
        [{ id := 3, createdAt := 3, purchaseOrderId := 10, qty := some 4,
           unitCost := none, msrp := none, categoryGuess := none,
           synergyId := none }] }

theorem digitVal_digitChar : ∀ d, d < 10 → digitVal (Nat.digitChar d) = d := by
  decide

theorem ofDigits_replicate_zero (k : Nat) :
    Nat.ofDigits 10 (List.replicate k 0) = 0 := by
  induction k with
  | zero => simp [Nat.ofDigits]
  | succ k ih => simp [List.replicate, Nat.ofDigits, ih]

theorem toDigitsCore_eq (n : Nat) : ∀ fuel ds, n ≠ 0 → n ≤ fuel →
    Nat.toDigitsCore 10 (fuel + 1) n ds
      = ((Nat.digits 10 n).reverse.map Nat.digitChar) ++ ds := by
  induction n using Nat.strong_induction_on with
  | _ n ih =>
    intro fuel ds hn hle
    rw [Nat.toDigitsCore]
    by_cases hdiv : n / 10 = 0
    · have hlt : n < 10 := by omega
      rw [if_pos hdiv]
      rw [Nat.digits_def' (by norm_num : 1 < 10) (Nat.pos_of_ne_zero hn), hdiv]
      simp [Nat.mod_eq_of_lt hlt]
    · rw [if_neg hdiv]
      cases fuel with
      | zero => exact absurd (Nat.le_zero.mp hle) hn
      | succ f =>
        have hdlt : n / 10 < n :=
          Nat.div_lt_self (Nat.pos_of_ne_zero hn) (by norm_num)
        have hdle : n / 10 ≤ f := by omega
        rw [ih (n / 10) hdlt f _ hdiv hdle]
        rw [Nat.digits_def' (by norm_num : 1 < 10) (Nat.pos_of_ne_zero hn)]
        simp [List.append_assoc]

theorem toDigits_eq_decChars (n : Nat) : Nat.toDigits 10 n = decChars n := by
  by_cases hn : n = 0
  · subst hn; rfl
  · rw [Nat.toDigits, toDigitsCore_eq n n [] hn (Nat.le_refl n)]
    simp [decChars, hn]

theorem repr_data (n : Nat) : (Nat.repr n).data = decChars n := by
  rw [Nat.repr, toDigits_eq_decChars]
  rfl

theorem padVal_pad (w n : Nat) :
    padVal (List.replicate (w - (decChars n).length) '0' ++ decChars n) = n := by
  have h0 : digitVal '0' = 0 := rfl
  by_cases hn : n = 0
  · subst hn
    simp only [padVal, decChars, if_pos rfl, List.reverse_append,
      List.map_append, List.map_replicate, List.reverse_replicate, h0]
    simp [Nat.ofDigits_append, ofDigits_replicate_zero, digitVal, Nat.ofDigits]
  · have hmap : (Nat.digits 10 n).map (digitVal ∘ Nat.digitChar)
        = Nat.digits 10 n := by
      apply (List.map_congr_left ?_).trans (List.map_id _)
      intro d hd
      exact digitVal_digitChar d (Nat.digits_lt_base (by norm_num) hd)
    simp only [padVal, decChars, if_neg hn, List.reverse_append,
      List.reverse_reverse, List.map_reverse, List.reverse_replicate,
      List.map_append, List.map_map, List.map_replicate, h0, hmap]
    rw [Nat.ofDigits_append, ofDigits_replicate_zero, Nat.ofDigits_digits]
    simp

theorem repr_length_eq (n : Nat) :
    (Nat.repr n).length = (decChars n).length := by
  rw [show (Nat.repr n).length = (Nat.repr n).data.length from rfl, repr_data]

theorem zfill_repr_inj {a b : Nat}
    (h : zfill 5 (Nat.repr a) = zfill 5 (Nat.repr b)) : a = b := by
  have hd := congrArg String.data h
  simp only [zfill, String.data_append] at hd
  rw [repr_data, repr_data, repr_length_eq, repr_length_eq] at hd
  have := congrArg padVal hd
  rwa [padVal_pad, padVal_pad] at this

theorem fmt_synergy_inj (p : String) {a b : Nat}
    (h : fmt_synergy p a = fmt_synergy p b) : a = b := by
  apply zfill_repr_inj (a := a) (b := b)
  have hd := congrArg String.data h
  simp only [fmt_synergy, String.data_append] at hd
  exact String.ext (List.append_cancel_left hd)

theorem lookupCounter_upsert_self (cs : List (String × Nat)) (p : String)
    (v : Nat) : lookupCounter (upsertCounter cs p v) p = some v := by
  induction cs with
  | nil => simp [lookupCounter, upsertCounter]
  | cons e es ih =>
    by_cases h : e.1 = p
    · simp [upsertCounter, lookupCounter, h]
    · simp [upsertCounter, lookupCounter, h, ih]

theorem lookupCounter_upsert_other (cs : List (String × Nat)) (p q : String)
    (v : Nat) (h : q ≠ p) :
    lookupCounter (upsertCounter cs p v) q = lookupCounter cs q := by
  induction cs with
  | nil => simp [lookupCounter, upsertCounter, fun e => h.symm e]
  | cons e es ih =>
    by_cases he : e.1 = p
    · subst he
      simp [upsertCounter, lookupCounter, fun e => h.symm e]
    · simp [upsertCounter, lookupCounter, he, ih]

theorem getNext_fst (st : DbState) (pfx : String) (a : Bool)
    (an : Option String) (pid plid iid : Option Nat) :
    (getNextSynergyCode st pfx a an pid plid iid).1
      = fmt_synergy pfx (reservedSeq st pfx) := rfl

theorem getNext_counters (st : DbState) (pfx : String) (a : Bool)
    (an : Option String) (pid plid iid : Option Nat) :
    (getNextSynergyCode st pfx a an pid plid iid).2.counters
      = upsertCounter st.counters pfx (reservedSeq st pfx + 1) := by
  cases a <;> rfl

theorem getNext_items (st : DbState) (pfx : String) (a : Bool)
    (an : Option String) (pid plid iid : Option Nat) :
    (getNextSynergyCode st pfx a an pid plid iid).2.items = st.items := by
  cases a <;> rfl

theorem getNext_poLines (st : DbState) (pfx : String) (a : Bool)
    (an : Option String) (pid plid iid : Option Nat) :
    (getNextSynergyCode st pfx a an pid plid iid).2.poLines = st.poLines := by
  cases a <;> rfl

theorem getNext_categories (st : DbState) (pfx : String) (a : Bool)
    (an : Option String) (pid plid iid : Option Nat) :
    (getNextSynergyCode st pfx a an pid plid iid).2.categories
      = st.categories := by
  cases a <;> rfl

theorem getNext_events_auditOk (st : DbState) (pfx : String)
    (an : Option String) (pid plid iid : Option Nat) :
    (getNextSynergyCode st pfx true an pid plid iid).2.events
      = st.events ++
        [{ eventType := "mint", pfx := pfx, seq := reservedSeq st pfx,
           code := fmt_synergy pfx (reservedSeq st pfx), actorName := an,
           poId := pid, poLineId := plid, inventoryId := iid,
           meta := [("source", "_get_next_synergy_code")] }] := rfl

theorem getNext_events_auditFail (st : DbState) (pfx : String)
    (an : Option String) (pid plid iid : Option Nat) :
    (getNextSynergyCode st pfx false an pid plid iid).2.events
      = st.events := rfl

theorem trueMaxSeq_congr (st st' : DbState) (pfx : String)
    (hi : st'.items = st.items) (hl : st'.poLines = st.poLines) :
    trueMaxSeq st' pfx = trueMaxSeq st pfx := by
  simp [trueMaxSeq, hi, hl]

theorem reservedSeq_getNext_self (st : DbState) (pfx : String) (a : Bool)
    (an : Option String) (pid plid iid : Option Nat) :
    reservedSeq (getNextSynergyCode st pfx a an pid plid iid).2 pfx
      = reservedSeq st pfx + 1 := by
  have h1 : lookupCounter
      (getNextSynergyCode st pfx a an pid plid iid).2.counters pfx
      = some (reservedSeq st pfx + 1) := by
    rw [getNext_counters]; exact lookupCounter_upsert_self _ _ _
  simp [reservedSeq, h1]

theorem reservedSeq_getNext_other (st : DbState) (pfx q : String) (a : Bool)
    (an : Option String) (pid plid iid : Option Nat) (h : q ≠ pfx) :
    reservedSeq (getNextSynergyCode st pfx a an pid plid iid).2 q
      = reservedSeq st q := by
  have h1 : lookupCounter
      (getNextSynergyCode st pfx a an pid plid iid).2.counters q
      = lookupCounter st.counters q := by
    rw [getNext_counters]; exact lookupCounter_upsert_other _ _ _ _ h
  have h2 : trueMaxSeq (getNextSynergyCode st pfx a an pid plid iid).2 q
      = trueMaxSeq st q :=
    trueMaxSeq_congr _ _ _ (getNext_items st pfx a an pid plid iid)
      (getNext_poLines st pfx a an pid plid iid)
  simp [reservedSeq, h1, h2]

theorem runAllocs_codes_ge (qs : List String) :
    ∀ st pfx c, c ∈ codesFor (runAllocs st qs).1 pfx →
      ∃ s, reservedSeq st pfx ≤ s ∧ c = fmt_synergy pfx s := by
  induction qs with
  | nil => intro st pfx c hc; simp [runAllocs, codesFor] at hc
  | cons q qs ih =>
    intro st pfx c hc
    simp only [runAllocs, codesFor, List.filter_cons] at hc
    by_cases hq : q = pfx
    · subst hq
      simp only [beq_self_eq_true, if_pos, List.map_cons] at hc
      rcases List.mem_cons.mp hc with h | h
      · exact ⟨reservedSeq st q, Nat.le_refl _, by
          rw [h, getNext_fst]⟩
      · rcases ih _ q c h with ⟨s, hs, hcs⟩
        rw [reservedSeq_getNext_self] at hs
        exact ⟨s, by omega, hcs⟩
    · rw [if_neg (by simp [hq])] at hc
      rcases ih _ pfx c hc with ⟨s, hs, hcs⟩
      rw [reservedSeq_getNext_other st q pfx true none none none none
        (fun e => hq e.symm)] at hs
      exact ⟨s, hs, hcs⟩

theorem runAllocs_codes_nodup (qs : List String) :
    ∀ st pfx, (codesFor (runAllocs st qs).1 pfx).Nodup := by
  induction qs with
  | nil => intro st pfx; simp [runAllocs, codesFor]
  | cons q qs ih =>
    intro st pfx
    simp only [runAllocs, codesFor, List.filter_cons]
    by_cases hq : q = pfx
    · subst hq
      simp only [beq_self_eq_true, if_pos, List.map_cons]
      refine List.nodup_cons.mpr ⟨?_, ih _ q⟩
      intro hmem
      rcases runAllocs_codes_ge qs _ q _ hmem with ⟨s, hs, hcs⟩
      rw [reservedSeq_getNext_self] at hs
      rw [getNext_fst] at hcs
      have := fmt_synergy_inj q hcs
      omega
    · rw [if_neg (by simp [hq])]
      exact ih _ pfx

/-- C1: each `_get_next_synergy_code` call returns the reserved sequence
value formatted as a code, writes `next_seq = reserved + 1` back to the
counter (insert-or-update), and within any trace of allocation calls the
codes returned for a prefix are pairwise distinct. -/
theorem alloc_reserved_written_back_and_unique :
    ∀ (st : DbState) (pfx : String) (a : Bool) (an : Option String)
      (pid plid iid : Option Nat),
      (getNextSynergyCode st pfx a an pid plid iid).1
          = fmt_synergy pfx (reservedSeq st pfx)
        ∧ (getNextSynergyCode st pfx a an pid plid iid).2.counters
            = upsertCounter st.counters pfx (reservedSeq st pfx + 1)
        ∧ lookupCounter
            (getNextSynergyCode st pfx a an pid plid iid).2.counters pfx
          = some (reservedSeq st pfx + 1)
        ∧ ∀ qs, (codesFor (runAllocs st qs).1 pfx).Nodup := by
  intro st pfx a an pid plid iid
  refine ⟨getNext_fst st pfx a an pid plid iid,
    getNext_counters st pfx a an pid plid iid, ?_,
    fun qs => runAllocs_codes_nodup qs st pfx⟩
  rw [getNext_counters]
  exact lookupCounter_upsert_self _ _ _

/-- C7: a failing audit-log insert is swallowed — the allocation still
returns its code with the counter advanced and only the event is lost —
while a counter-store failure aborts the whole allocation and leaves the
state unchanged (no sequence is consumed). -/
theorem alloc_error_path_asymmetry :
    ∀ (st : DbState) (pfx : String),
      (runAlloc st pfx true false).1
          = some (fmt_synergy pfx (reservedSeq st pfx))
        ∧ (runAlloc st pfx true false).2.counters
            = upsertCounter st.counters pfx (reservedSeq st pfx + 1)
        ∧ (runAlloc st pfx true false).2.events = st.events
        ∧ ∀ a, runAlloc st pfx false a = (none, st) := by
  intro st pfx
  exact ⟨rfl, rfl, rfl, fun a => rfl⟩

/-- C9: the peek endpoint of routes_synergy.py calls the undefined
`_get_starting_seq_for_prefix` and therefore raises `NameError` on every
request, never returning a code. -/
theorem prefix_peek_raises_name_error :
    ∀ (st : DbState) (pfx : String),
      prefixPeek st pfx
          = Except.error (PyError.nameError "_get_starting_seq_for_prefix")
        ∧ ∀ code, prefixPeek st pfx ≠ Except.ok code := by
  intro st pfx
  exact ⟨rfl, fun code h => Except.noConfusion h⟩

theorem zfill_length (w : Nat) (s : String) :
    (zfill w s).length = (w - s.length) + s.length := by
  simp [zfill, String.length_append]

/-- C10: `fmt_synergy` appears with 5-digit padding in routes_synergy.py and
with 4-digit padding in main.py and scraper-py/app.py: on any sequence below
10000 the two return different strings, so the two formatting definitions
are not extensionally equal (the main.py and scraper copies do agree). -/
theorem fmt_synergy_widths_disagree :
    (∀ (pfx : String) (seq : Nat), seq < 10000 →
        fmt_synergy pfx seq ≠ fmt_synergy_main pfx seq)
      ∧ ∀ (pfx : String) (seq : Nat),
          fmt_synergy_main pfx seq = fmt_synergy_scraper pfx seq := by
  constructor
  · intro pfx seq hlt h
    have hrl : (Nat.repr seq).length ≤ 4 :=
      Nat.repr_length seq 4 (by norm_num) (by omega)
    have hlen := congrArg String.length h
    simp only [fmt_synergy, fmt_synergy_main, String.length_append,
      zfill_length] at hlen
    omega
  · intro pfx seq
    rfl

/-- Closed witness for the C10 theorem at prefix `LAP`, sequence 7. -/
theorem fmt_synergy_widths_disagree_witness :
    7 < 10000 ∧ fmt_synergy "LAP" 7 ≠ fmt_synergy_main "LAP" 7 :=
  ⟨by norm_num, fmt_synergy_widths_disagree.1 "LAP" 7 (by norm_num)⟩

theorem le_foldMax (l : List (Option Nat)) (s : Nat) (h : some s ∈ l) :
    s ≤ foldMax l := by
  induction l with
  | nil => simp at h
  | cons o l ih =>
    cases o with
    | none =>
      have hmem : some s ∈ l := by
        rcases List.mem_cons.mp h with h1 | h1
        · exact absurd h1 (by simp)
        · exact h1
      exact le_trans (ih hmem) (le_of_eq rfl)
    | some v =>
      have hf : foldMax (some v :: l) = Nat.max v (foldMax l) := rfl
      rcases List.mem_cons.mp h with h1 | h1
      · have hsv : s = v := by injection h1
        rw [hf, hsv]
        exact Nat.le_max_left _ _
      · rw [hf]
        exact le_trans (ih h1) (Nat.le_max_right _ _)

theorem usedLineSeqs_le_trueMax (st : DbState) (pfx : String) (s : Nat)
    (h : s ∈ usedLineSeqs st pfx) : s ≤ trueMaxSeq st pfx := by
  unfold usedLineSeqs at h
  rcases List.mem_filterMap.mp h with ⟨o, ho, hos⟩
  subst hos
  exact le_trans (le_foldMax _ s ho) (Nat.le_max_right _ _)

theorem usedSeqs_congr (st st' : DbState) (pfx : String)
    (hi : st'.items = st.items) (hl : st'.poLines = st.poLines) :
    usedSeqs st' pfx = usedSeqs st pfx := by
  simp [usedSeqs, hi, hl]

theorem counterAboveUsed_iff (st : DbState) (pfx : String) :
    counterAboveUsed st pfx = true ↔
      ∀ v, lookupCounter st.counters pfx = some v →
        ∀ s ∈ usedSeqs st pfx, s < v := by
  unfold counterAboveUsed
  cases hx : lookupCounter st.counters pfx with
  | none => simp
  | some v => simp [List.all_eq_true, Nat.blt_eq]

theorem reservedSeq_of_none (st : DbState) (pfx : String)
    (h : lookupCounter st.counters pfx = none) :
    reservedSeq st pfx = trueMaxSeq st pfx + 1 := by
  simp [reservedSeq, h]

theorem reservedSeq_of_some (st : DbState) (pfx : String) (v : Nat)
    (h : lookupCounter st.counters pfx = some v) :
    reservedSeq st pfx = v := by
  simp [reservedSeq, h]

/-- C2 (amended): an allocation that finds an existing counter row preserves
the invariant `next_seq(P) >` every sequence value present in either table;
but no write path establishes that invariant over the item table, because
the scans read the legacy `inventory_items.synergy_id` column: fresh counter
creation, reset and an accepted routes_synergy.py manual set only guarantee
`next_seq(P) >` every sequence present in the `po_lines` table, and the
main.py manual-set path checks nothing at all.  (The counterexample breaks
the claimed two-table invariant through fresh creation, reset, the routes
manual set and the main.py manual set alike.) -/
theorem guarded_counter_writes_exceed_used :
    (∀ (st : DbState) (pfx : String) (v : Nat) (a : Bool)
        (an : Option String) (pid plid iid : Option Nat),
        lookupCounter st.counters pfx = some v →
        counterAboveUsed st pfx = true →
        counterAboveUsed (getNextSynergyCode st pfx a an pid plid iid).2 pfx
          = true)
      ∧ (∀ (st : DbState) (pfx : String) (actor : Option String),
          lookupCounter (prefixReset st pfx actor).2.counters pfx
              = some (trueMaxSeq st pfx + 1)
            ∧ ∀ s ∈ usedLineSeqs st pfx, s < trueMaxSeq st pfx + 1)
      ∧ (∀ (st : DbState) (pfx : String) (a : Bool) (an : Option String)
          (pid plid iid : Option Nat),
          lookupCounter st.counters pfx = none →
          lookupCounter
              (getNextSynergyCode st pfx a an pid plid iid).2.counters pfx
              = some (trueMaxSeq st pfx + 2)
            ∧ ∀ s ∈ usedLineSeqs st pfx, s < trueMaxSeq st pfx + 2)
      ∧ (∀ (st : DbState) (pfx : String) (nxt : Int)
          (actor reason : Option String) (v : Nat) (st' : DbState),
          prefixSetRoutes st pfx nxt actor reason = Except.ok (v, st') →
          lookupCounter st'.counters pfx = some v
            ∧ ∀ s ∈ usedLineSeqs st pfx, s < v) := by
  refine ⟨?_, ?_, ?_, ?_⟩
  · intro st pfx v a an pid plid iid hx hpre
    rw [counterAboveUsed_iff]
    intro w hw s hs
    rw [getNext_counters, lookupCounter_upsert_self] at hw
    injection hw with hw
    have hs' : s ∈ usedSeqs st pfx := by
      rwa [usedSeqs_congr st _ pfx (getNext_items st pfx a an pid plid iid)
        (getNext_poLines st pfx a an pid plid iid)] at hs
    have h1 := (counterAboveUsed_iff st pfx).mp hpre v hx s hs'
    have h2 := reservedSeq_of_some st pfx v hx
    omega
  · intro st pfx actor
    constructor
    · have hc : (prefixReset st pfx actor).2.counters
          = upsertCounter st.counters pfx (trueMaxSeq st pfx + 1) := rfl
      rw [hc]
      exact lookupCounter_upsert_self _ _ _
    · intro s hs
      have := usedLineSeqs_le_trueMax st pfx s hs
      omega
  · intro st pfx a an pid plid iid hnone
    constructor
    · rw [getNext_counters, lookupCounter_upsert_self,
        reservedSeq_of_none st pfx hnone]
    · intro s hs
      have := usedLineSeqs_le_trueMax st pfx s hs
      omega
  · intro st pfx nxt actor reason v st' hok
    unfold prefixSetRoutes at hok
    by_cases h1 : nxt < 1
    · rw [if_pos h1] at hok
      exact Except.noConfusion hok
    · rw [if_neg h1] at hok
      by_cases h2 : nxt.toNat < safeMinNext st pfx
      · rw [if_pos h2] at hok
        exact Except.noConfusion hok
      · rw [if_neg h2] at hok
        injection hok with hok
        injection hok with hv hst
        subst hst
        constructor
        · show lookupCounter (upsertCounter st.counters pfx nxt.toNat) pfx
              = some v
          rw [lookupCounter_upsert_self, hv]
        · intro s hs
          have h3 := usedLineSeqs_le_trueMax st pfx s hs
          have h4 : trueMaxSeq st pfx + 1 ≤ safeMinNext st pfx :=
            Nat.le_max_left _ _
          omega

/-- Closed witness for the C2 theorem: the preservation part applied at
`stCnt11` (counter 11 above the used item-code sequence 10). -/
theorem guarded_counter_writes_exceed_used_witness :
    lookupCounter stCnt11.counters "LAP" = some 11
      ∧ counterAboveUsed stCnt11 "LAP" = true
      ∧ counterAboveUsed
          (getNextSynergyCode stCnt11 "LAP" true none none none none).2 "LAP"
          = true :=
  ⟨by decide, by decide,
    guarded_counter_writes_exceed_used.1 stCnt11 "LAP" 11 true none none none
      none (by decide) (by decide)⟩

/-- C2 counterexample: with the sequence 10 held only as an item code
(`synergy_code`), the scans see nothing — a first allocation leaves
`next_seq(LAP) = 2`, reset writes `next_seq = 1`, the routes manual set
accepts `next = 5`, and the main.py manual set accepts `next = 5`; every
one of these leaves `next_seq(LAP)` at or below a sequence present in the
item table, refuting the claimed invariant as stated. -/
theorem counter_writes_below_item_code :
    10 ∈ usedSeqs stLap10 "LAP"
      ∧ counterAboveUsed
          (getNextSynergyCode stLap10 "LAP" true none none none none).2 "LAP"
          = false
      ∧ lookupCounter (prefixReset stLap10 "LAP" none).2.counters "LAP"
          = some 1
      ∧ counterAboveUsed (prefixReset stLap10 "LAP" none).2 "LAP" = false
      ∧ (prefixSetRoutes stLap10 "LAP" 5 none none).toOption.map
          (fun r => counterAboveUsed r.2 "LAP") = some false
      ∧ (prefixSetMain stLap10 "LAP" 5).toOption.map
          (fun r => counterAboveUsed r.2 "LAP") = some false := by
  exact ⟨by decide, by decide, by decide, by decide, by decide, by decide⟩

theorem lookupCounter_append_of_none (cs : List (String × Nat)) (p : String)
    (v : Nat) (h : lookupCounter cs p = none) :
    lookupCounter (cs ++ [(p, v)]) p = some v := by
  induction cs with
  | nil => simp [lookupCounter]
  | cons e es ih =>
    by_cases he : e.1 = p
    · simp [lookupCounter, he] at h
    · simp only [List.cons_append, lookupCounter, he, if_neg he] at h ⊢
      exact ih h

/-- C3 (amended): with no counter row, `_get_next_synergy_code` reserves one
more than its scan's maximum — a scan whose `po_lines` leg parses line codes
but whose `inventory_items` leg reads the legacy `synergy_id` column and so
never sees item codes.  In the claim's concrete scenario the first
allocation does return `LAP-00008`, but only because `LAP-00005` …
`LAP-00007` sit on lines; a prefix whose only code lives on an item
(`LAP-00009`) seeds at 1.  The duplicated allocator `_take_synergy` of
main.py performs no scan at all and always reserves `1` (writing
`next_seq = 2`). -/
theorem recovery_seeding_allocators :
    (∀ (st : DbState) (pfx : String) (a : Bool) (an : Option String)
        (pid plid iid : Option Nat),
        lookupCounter st.counters pfx = none →
        (getNextSynergyCode st pfx a an pid plid iid).1
            = fmt_synergy pfx (trueMaxSeq st pfx + 1)
          ∧ lookupCounter
              (getNextSynergyCode st pfx a an pid plid iid).2.counters pfx
            = some (trueMaxSeq st pfx + 2))
      ∧ (getNextSynergyCode stLap "LAP" true none none none none).1
          = "LAP-00008"
      ∧ (getNextSynergyCode stItem9 "LAP" true none none none none).1
          = "LAP-00001"
      ∧ (∀ (st : DbState) (pfx : String),
          lookupCounter st.counters pfx = none →
          (takeSynergyMain st pfx).1 = fmt_synergy_main pfx 1
            ∧ lookupCounter (takeSynergyMain st pfx).2.counters pfx
              = some 2) := by
  refine ⟨?_, by decide, by decide, ?_⟩
  · intro st pfx a an pid plid iid hnone
    have hres := reservedSeq_of_none st pfx hnone
    constructor
    · rw [getNext_fst, hres]
    · rw [getNext_counters, lookupCounter_upsert_self, hres]
  · intro st pfx hnone
    unfold takeSynergyMain
    rw [hnone]
    exact ⟨rfl, lookupCounter_append_of_none st.counters pfx 2 hnone⟩

/-- Closed witness for the C3 theorem: the recovery-seeding part applied at
the `LAP` scenario (line codes 5-7 visible to the scan, maximum 7). -/
theorem recovery_seeding_allocators_witness :
    lookupCounter stLap.counters "LAP" = none
      ∧ (getNextSynergyCode stLap "LAP" true none none none none).1
          = fmt_synergy "LAP" (trueMaxSeq stLap "LAP" + 1) :=
  ⟨by decide, (recovery_seeding_allocators.1 stLap "LAP" true none none none
    none (by decide)).1⟩

/-- C3 counterexample: the scan does not cover the item table.  For prefix
`LAP` with no counter row and the single existing code `LAP-00009` held in
an item's `synergy_code` column, the claim's recovery rule demands the
first allocation return `LAP-00010`; the spec-worded two-table maximum is
9, but the program's scan computes 0 and the allocation returns
`LAP-00001`. -/
theorem allocator_blind_to_item_codes :
    (stItem9.items.map (fun it => it.synergyCode)) = ["LAP-00009"]
      ∧ lookupCounter stItem9.counters "LAP" = none
      ∧ specTrueMaxSeq stItem9 "LAP" = 9
      ∧ trueMaxSeq stItem9 "LAP" = 0
      ∧ (getNextSynergyCode stItem9 "LAP" true none none none none).1
          = "LAP-00001"
      ∧ (getNextSynergyCode stItem9 "LAP" true none none none none).1
          ≠ "LAP-00010" := by
  exact ⟨by decide, by decide, by decide, by decide, by decide, by decide⟩

/-- C4 (amended): the routes_synergy.py manual-set rejects — error carrying
the computed safe minimum, state untouched — any `next` below
`max(true_max_seq + 1, current next_seq)`, where `true_max_seq` is the
program's scan: line codes raise the floor (with `LAP-00010` on a line,
`next = 5` is rejected with safe minimum 11 and the counter unchanged), but
item codes do not (with `LAP-00010` only in an item's `synergy_code` column
the floor is 1 and `next = 5` is accepted).  The duplicated main.py
manual-set checks nothing and accepts any `next ≥ 1`. -/
theorem manual_set_guard_routes_vs_main :
    (∀ (st : DbState) (pfx : String) (nxt : Int)
        (actor reason : Option String),
        1 ≤ nxt → nxt.toNat < safeMinNext st pfx →
        runPrefixSetRoutes st pfx nxt actor reason
          = (Except.error (SetError.belowSafeMin
              (setRejectMessage st pfx nxt.toNat) (safeMinNext st pfx)),
             st))
      ∧ rejectedSafeNext (runPrefixSetRoutes stLine10 "LAP" 5 none none).1
          = some 11
      ∧ (runPrefixSetRoutes stLine10 "LAP" 5 none none).2 = stLine10
      ∧ (runPrefixSetRoutes stLap10 "LAP" 5 none none).1.toOption = some 5
      ∧ (∀ (st : DbState) (pfx : String) (nxt : Int), 1 ≤ nxt →
          prefixSetMain st pfx nxt
            = Except.ok (nxt.toNat,
                { st with
                    counters := upsertCounter st.counters pfx nxt.toNat })) := by
  refine ⟨?_, by decide, by decide, by decide, ?_⟩
  · intro st pfx nxt actor reason h1 h2
    unfold runPrefixSetRoutes prefixSetRoutes
    rw [if_neg (by omega), if_pos h2]
  · intro st pfx nxt h1
    unfold prefixSetMain
    rw [if_neg (by omega)]

/-- Closed witness for the C4 theorem: the rejection part applied where the
program's `true_max_seq` is 10 (`LAP-00010` on a line) and `next = 5`. -/
theorem manual_set_guard_routes_vs_main_witness :
    (1 : Int) ≤ 5 ∧ (5 : Int).toNat < safeMinNext stLine10 "LAP"
      ∧ runPrefixSetRoutes stLine10 "LAP" 5 none none
        = (Except.error (SetError.belowSafeMin
            (setRejectMessage stLine10 "LAP" (5 : Int).toNat)
            (safeMinNext stLine10 "LAP")), stLine10) :=
  ⟨by norm_num, by decide,
    manual_set_guard_routes_vs_main.1 stLine10 "LAP" 5 none none (by norm_num)
      (by decide)⟩

/-- C4 counterexample: the claim fails in both directions — the main.py
manual-set operation accepts `next = 5` even when the program's
`true_max_seq` is 10 (`LAP-00010` on a line), and the guarded
routes_synergy.py manual-set itself accepts `next = 5` when the sequence 10
exists only as an item code, because its floor never sees the item table. -/
theorem manual_set_accepts_below_true_floor :
    trueMaxSeq stLine10 "LAP" = 10
      ∧ (prefixSetMain stLine10 "LAP" 5).toOption.map Prod.fst = some 5
      ∧ specTrueMaxSeq stLap10 "LAP" = 10
      ∧ (prefixSetRoutes stLap10 "LAP" 5 none none).toOption.map Prod.fst
          = some 5 := by
  exact ⟨by decide, by decide, by decide, by decide⟩

theorem explodeUnit_poLines (po : Nat) (row : ExplodeRow) (cid : Nat)
    (acc : ExplodeAcc) :
    (explodeUnit po row cid acc).st.poLines = acc.st.poLines := by
  unfold explodeUnit
  cases hpm : row.preMinted with
  | none => simp [getNext_poLines]
  | some pm =>
    by_cases hc : pm ∈ acc.codes
    · simp [hc, getNext_poLines]
    · simp [hc]

theorem explodeUnit_categories (po : Nat) (row : ExplodeRow) (cid : Nat)
    (acc : ExplodeAcc) :
    (explodeUnit po row cid acc).st.categories = acc.st.categories := by
  unfold explodeUnit
  cases hpm : row.preMinted with
  | none => simp [getNext_categories]
  | some pm =>
    by_cases hc : pm ∈ acc.codes
    · simp [hc, getNext_categories]
    · simp [hc]

theorem explodeUnit_items (po : Nat) (row : ExplodeRow) (cid : Nat)
    (acc : ExplodeAcc) :
    ∃ it : InventoryItem,
      (explodeUnit po row cid acc).st.items = acc.st.items ++ [it]
        ∧ it.poLineId = row.id ∧ it.purchaseOrderId = po := by
  unfold explodeUnit
  cases hpm : row.preMinted with
  | none =>
    refine ⟨mkItem
      (getNextSynergyCode acc.st row.pfx true none none none none).1 po row
      cid, ?_, rfl, rfl⟩
    simp [getNext_items]
  | some pm =>
    by_cases hc : pm ∈ acc.codes
    · refine ⟨mkItem
        (getNextSynergyCode acc.st row.pfx true none none none none).1 po row
        cid, ?_, rfl, rfl⟩
      simp [hc, getNext_items]
    · refine ⟨mkItem pm po row cid, ?_, rfl, rfl⟩
      simp [hc]

theorem countItemsForLine_append (a b : List InventoryItem) (po lid : Nat) :
    countItemsForLine (a ++ b) po lid
      = countItemsForLine a po lid + countItemsForLine b po lid := by
  simp [countItemsForLine, List.filter_append]

theorem countItemsForLine_single_match (it : InventoryItem) (po lid : Nat)
    (h1 : it.purchaseOrderId = po) (h2 : it.poLineId = lid) :
    countItemsForLine [it] po lid = 1 := by
  simp [countItemsForLine, List.filter, h1, h2]

theorem explodeUnit_count_own (po : Nat) (row : ExplodeRow) (cid : Nat)
    (acc : ExplodeAcc) :
    countItemsForLine (explodeUnit po row cid acc).st.items po row.id
      = countItemsForLine acc.st.items po row.id + 1 := by
  rcases explodeUnit_items po row cid acc with ⟨it, heq, h1, h2⟩
  rw [heq, countItemsForLine_append,
    countItemsForLine_single_match it po row.id h2 h1]

theorem explodeUnit_count_mono (po : Nat) (row : ExplodeRow) (cid : Nat)
    (acc : ExplodeAcc) (po' lid : Nat) :
    countItemsForLine acc.st.items po' lid
      ≤ countItemsForLine (explodeUnit po row cid acc).st.items po' lid := by
  rcases explodeUnit_items po row cid acc with ⟨it, heq, _, _⟩
  rw [heq, countItemsForLine_append]
  omega

theorem explodeUnits_poLines (po : Nat) (row : ExplodeRow) (cid : Nat) :
    ∀ (n : Nat) (acc : ExplodeAcc),
      (explodeUnits po row cid n acc).st.poLines = acc.st.poLines := by
  intro n
  induction n with
  | zero => intro acc; rfl
  | succ n ih =>
    intro acc
    rw [explodeUnits, ih, explodeUnit_poLines]

theorem explodeUnits_categories (po : Nat) (row : ExplodeRow) (cid : Nat) :
    ∀ (n : Nat) (acc : ExplodeAcc),
      (explodeUnits po row cid n acc).st.categories
        = acc.st.categories := by
  intro n
  induction n with
  | zero => intro acc; rfl
  | succ n ih =>
    intro acc
    rw [explodeUnits, ih, explodeUnit_categories]

theorem explodeUnits_count_own (po : Nat) (row : ExplodeRow) (cid : Nat) :
    ∀ (n : Nat) (acc : ExplodeAcc),
      countItemsForLine (explodeUnits po row cid n acc).st.items po row.id
        = countItemsForLine acc.st.items po row.id + n := by
  intro n
  induction n with
  | zero => intro acc; rfl
  | succ n ih =>
    intro acc
    rw [explodeUnits, ih, explodeUnit_count_own]
    omega

theorem explodeUnits_count_mono (po : Nat) (row : ExplodeRow) (cid : Nat) :
    ∀ (n : Nat) (acc : ExplodeAcc) (po' lid : Nat),
      countItemsForLine acc.st.items po' lid
        ≤ countItemsForLine (explodeUnits po row cid n acc).st.items po'
          lid := by
  intro n
  induction n with
  | zero => intro acc po' lid; exact Nat.le_refl _
  | succ n ih =>
    intro acc po' lid
    rw [explodeUnits]
    exact le_trans (explodeUnit_count_mono po row cid acc po' lid)
      (ih (explodeUnit po row cid acc) po' lid)

theorem explodeLineStep_poLines (st0 : DbState) (po : Nat) (acc : ExplodeAcc)
    (row : ExplodeRow) :
    (explodeLineStep st0 po acc row).st.poLines = acc.st.poLines := by
  cases hcat : row.categoryId with
  | none => simp [explodeLineStep, hcat]
  | some cid =>
    by_cases hp : row.pfx = ""
    · simp [explodeLineStep, hcat, hp]
    · simp only [explodeLineStep, hcat]
      rw [if_neg hp]
      split
      · rfl
      · exact explodeUnits_poLines po row cid _ _

theorem explodeLineStep_categories (st0 : DbState) (po : Nat)
    (acc : ExplodeAcc) (row : ExplodeRow) :
    (explodeLineStep st0 po acc row).st.categories
      = acc.st.categories := by
  cases hcat : row.categoryId with
  | none => simp [explodeLineStep, hcat]
  | some cid =>
    by_cases hp : row.pfx = ""
    · simp [explodeLineStep, hcat, hp]
    · simp only [explodeLineStep, hcat]
      rw [if_neg hp]
      split
      · rfl
      · exact explodeUnits_categories po row cid _ _

theorem explodeLineStep_count_mono (st0 : DbState) (po : Nat)
    (acc : ExplodeAcc) (row : ExplodeRow) (po' lid : Nat) :
    countItemsForLine acc.st.items po' lid
      ≤ countItemsForLine (explodeLineStep st0 po acc row).st.items po'
        lid := by
  cases hcat : row.categoryId with
  | none => simp [explodeLineStep, hcat]
  | some cid =>
    by_cases hp : row.pfx = ""
    · simp [explodeLineStep, hcat, hp]
    · simp only [explodeLineStep, hcat]
      rw [if_neg hp]
      split
      · exact Nat.le_refl _
      · exact explodeUnits_count_mono po row cid _ acc po' lid

theorem explodeLineStep_count_own (st0 : DbState) (po : Nat)
    (acc : ExplodeAcc) (row : ExplodeRow) (cid : Nat)
    (hcat : row.categoryId = some cid) (hp : row.pfx ≠ "")
    (hacc : countItemsForLine st0.items po row.id
      ≤ countItemsForLine acc.st.items po row.id) :
    row.qty
      ≤ countItemsForLine (explodeLineStep st0 po acc row).st.items po
        row.id := by
  simp only [explodeLineStep, hcat]
  rw [if_neg hp]
  by_cases hneed : max 0 ((row.qty : Int)
      - (countItemsForLine st0.items po row.id : Int)) ≤ 0
  · rw [if_pos hneed]
    have hx : (row.qty : Int)
        - (countItemsForLine st0.items po row.id : Int) ≤ 0 :=
      (max_le_iff.mp hneed).2
    show row.qty ≤ countItemsForLine acc.st.items po row.id
    omega
  · rw [if_neg hneed]
    rw [explodeUnits_count_own]
    have hx : 0 < (row.qty : Int)
        - (countItemsForLine st0.items po row.id : Int) := by
      by_contra hle
      exact hneed (max_le (Int.le_refl 0) (by omega))
    rw [max_eq_right (le_of_lt hx)]
    omega

theorem foldl_explode_poLines (st0 : DbState) (po : Nat) :
    ∀ (rows : List ExplodeRow) (acc : ExplodeAcc),
      ((rows.foldl (explodeLineStep st0 po) acc).st.poLines
        = acc.st.poLines) := by
  intro rows
  induction rows with
  | nil => intro acc; rfl
  | cons r rs ih =>
    intro acc
    rw [List.foldl_cons, ih, explodeLineStep_poLines]

theorem foldl_explode_categories (st0 : DbState) (po : Nat) :
    ∀ (rows : List ExplodeRow) (acc : ExplodeAcc),
      ((rows.foldl (explodeLineStep st0 po) acc).st.categories
        = acc.st.categories) := by
  intro rows
  induction rows with
  | nil => intro acc; rfl
  | cons r rs ih =>
    intro acc
    rw [List.foldl_cons, ih, explodeLineStep_categories]

theorem foldl_explode_count_mono (st0 : DbState) (po po' lid : Nat) :
    ∀ (rows : List ExplodeRow) (acc : ExplodeAcc),
      countItemsForLine acc.st.items po' lid
        ≤ countItemsForLine
            ((rows.foldl (explodeLineStep st0 po) acc).st.items) po' lid := by
  intro rows
  induction rows with
  | nil => intro acc; exact Nat.le_refl _
  | cons r rs ih =>
    intro acc
    rw [List.foldl_cons]
    exact le_trans (explodeLineStep_count_mono st0 po acc r po' lid)
      (ih (explodeLineStep st0 po acc r))

theorem foldl_explode_fully (st0 : DbState) (po : Nat) :
    ∀ (rows : List ExplodeRow) (acc : ExplodeAcc),
      (∀ lid, countItemsForLine st0.items po lid
        ≤ countItemsForLine acc.st.items po lid) →
      ∀ row ∈ rows, ∀ cid, row.categoryId = some cid → row.pfx ≠ "" →
        row.qty ≤ countItemsForLine
          ((rows.foldl (explodeLineStep st0 po) acc).st.items) po row.id := by
  intro rows
  induction rows with
  | nil => intro acc hacc row hrow; simp at hrow
  | cons r rs ih =>
    intro acc hacc row hrow cid hcat hp
    rw [List.foldl_cons]
    rcases List.mem_cons.mp hrow with h | h
    · subst h
      exact le_trans
        (explodeLineStep_count_own st0 po acc row cid hcat hp (hacc row.id))
        (foldl_explode_count_mono st0 po po row.id rs _)
    · exact ih (explodeLineStep st0 po acc r)
        (fun lid => le_trans (hacc lid)
          (explodeLineStep_count_mono st0 po acc r po lid)) row h cid hcat hp

theorem explodeByLine_poLines (st : DbState) (po : Nat) :
    (explodeByLine st po).2.poLines = st.poLines := by
  simp only [explodeByLine]
  rw [foldl_explode_poLines]

theorem explodeByLine_categories (st : DbState) (po : Nat) :
    (explodeByLine st po).2.categories = st.categories := by
  simp only [explodeByLine]
  rw [foldl_explode_categories]

theorem explodeByLine_fully (st : DbState) (po : Nat) :
    ∀ row ∈ explodeRows st po, ∀ cid, row.categoryId = some cid →
      row.pfx ≠ "" →
      row.qty ≤ countItemsForLine (explodeByLine st po).2.items po row.id := by
  intro row hrow cid hcat hp
  simp only [explodeByLine]
  exact foldl_explode_fully st po (explodeRows st po) _
    (fun lid => Nat.le_refl _) row hrow cid hcat hp

theorem foldl_explode_all_skip (st0 : DbState) (po : Nat) :
    ∀ (rows : List ExplodeRow) (acc : ExplodeAcc),
      (∀ row ∈ rows, ∀ cid, row.categoryId = some cid → row.pfx ≠ "" →
        row.qty ≤ countItemsForLine st0.items po row.id) →
      ∃ k, rows.foldl (explodeLineStep st0 po) acc
        = { acc with skipped := acc.skipped + k } := by
  intro rows
  induction rows with
  | nil => intro acc h; exact ⟨0, by simp⟩
  | cons r rs ih =>
    intro acc h
    have hstep : explodeLineStep st0 po acc r
        = { acc with skipped := acc.skipped + r.qty } := by
      cases hcat : r.categoryId with
      | none => simp [explodeLineStep, hcat]
      | some cid =>
        by_cases hp : r.pfx = ""
        · simp [explodeLineStep, hcat, hp]
        · have hq := h r (List.mem_cons_self r rs) cid hcat hp
          simp only [explodeLineStep, hcat]
          rw [if_neg hp, if_pos (max_le (Int.le_refl 0) (by omega))]
    have hrs : ∀ row ∈ rs, ∀ cid, row.categoryId = some cid →
        row.pfx ≠ "" →
        row.qty ≤ countItemsForLine st0.items po row.id :=
      fun row hrow cid hcat hp =>
        h row (List.mem_cons_of_mem r hrow) cid hcat hp
    rcases ih { acc with skipped := acc.skipped + r.qty } hrs with ⟨k, hk⟩
    refine ⟨r.qty + k, ?_⟩
    rw [List.foldl_cons, hstep, hk]
    simp [Nat.add_assoc]

theorem explodeByLine_snd_eq (st : DbState) (po : Nat) :
    (explodeByLine st po).2
      = ((explodeRows st po).foldl (explodeLineStep st po)
          { created := 0, skipped := 0, codes := itemCodesForPo st.items po,
            st := st }).st := rfl

theorem explodeByLine_created_eq (st : DbState) (po : Nat) :
    (explodeByLine st po).1.created
      = ((explodeRows st po).foldl (explodeLineStep st po)
          { created := 0, skipped := 0, codes := itemCodesForPo st.items po,
            st := st }).created := rfl

/-- C5: for each line the engine computes `need = max(0, qty − have)` and a
line with `need = 0` only contributes to `skipped`; consequently a second
`explode(po_id)` call with no intervening changes creates zero items and
returns the state — counters, items, everything — unchanged. -/
theorem explode_idempotent :
    ∀ (st : DbState) (po : Nat),
      (explodeByLine (explodeByLine st po).2 po).1.created = 0
        ∧ (explodeByLine (explodeByLine st po).2 po).2
          = (explodeByLine st po).2 := by
  intro st po
  have hrows : explodeRows (explodeByLine st po).2 po = explodeRows st po := by
    unfold explodeRows
    rw [explodeByLine_poLines, explodeByLine_categories]
  have hfull : ∀ row ∈ explodeRows (explodeByLine st po).2 po, ∀ cid,
      row.categoryId = some cid → row.pfx ≠ "" →
      row.qty ≤ countItemsForLine (explodeByLine st po).2.items po
        row.id := by
    intro row hrow cid hcat hp
    rw [hrows] at hrow
    exact explodeByLine_fully st po row hrow cid hcat hp
  rcases foldl_explode_all_skip (explodeByLine st po).2 po
      (explodeRows (explodeByLine st po).2 po)
      { created := 0, skipped := 0,
        codes := itemCodesForPo (explodeByLine st po).2.items po,
        st := (explodeByLine st po).2 } hfull with ⟨k, hk⟩
  constructor
  · rw [explodeByLine_created_eq, hk]
  · rw [explodeByLine_snd_eq, hk]

/-- C8: a line without a resolved category or prefix only adds its full
quantity to `skipped` — the loop body is otherwise the identity, so the
batch never aborts — and every sibling line with a resolved category and
prefix still ends the call fully exploded (at least `qty` items). -/
theorem explode_partial_category_tolerance :
    (∀ (st0 : DbState) (po : Nat) (acc : ExplodeAcc) (row : ExplodeRow),
        row.categoryId = none ∨ row.pfx = "" →
        explodeLineStep st0 po acc row
          = { acc with skipped := acc.skipped + row.qty })
      ∧ (∀ (st : DbState) (po : Nat), ∀ row ∈ explodeRows st po, ∀ cid,
          row.categoryId = some cid → row.pfx ≠ "" →
          row.qty ≤ countItemsForLine (explodeByLine st po).2.items po
            row.id) := by
  constructor
  · intro st0 po acc row h
    rcases h with h | h
    · simp [explodeLineStep, h]
    · cases hcat : row.categoryId with
      | none => simp [explodeLineStep, hcat]
      | some cid => simp [explodeLineStep, hcat, h]
  · intro st po row hrow cid hcat hp
    exact explodeByLine_fully st po row hrow cid hcat hp

/-- Closed witness for the C8 theorem on `stGenBad` (two resolvable lines
plus a category-less line of qty 4 in purchase order 10). -/
theorem explode_partial_category_tolerance_witness :
    (explodeLineStep stGenBad 10
        { created := 0, skipped := 0, codes := [], st := stGenBad }
        { id := 3, qty := 4, unitCost := none, msrp := none,
          categoryId := none, pfx := "", preMinted := none, specs := "{}",
          testerComment := none }
      = { created := 0, skipped := 0 + 4, codes := [], st := stGenBad })
      ∧ 2 ≤ countItemsForLine (explodeByLine stGenBad 10).2.items 10 1 :=
  ⟨explode_partial_category_tolerance.1 stGenBad 10
      { created := 0, skipped := 0, codes := [], st := stGenBad }
      { id := 3, qty := 4, unitCost := none, msrp := none,
        categoryId := none, pfx := "", preMinted := none, specs := "{}",
        testerComment := none } (Or.inl rfl),
   explode_partial_category_tolerance.2 stGenBad 10
      { id := 1, qty := 2, unitCost := some 5, msrp := some 20,
        categoryId := some 1, pfx := "GEN", preMinted := none, specs := "{}",
        testerComment := none } (by decide) 1 rfl (by decide)⟩

/-- C6: the worked example.  From fresh prefix `GEN` and two lines of qty 2
and 3, preview returns `[GEN-00001, GEN-00002]` and
`[GEN-00003, GEN-00004, GEN-00005]` (consecutive non-overlapping blocks in
creation-then-id order); mint writes `GEN-00001`/`GEN-00002` onto the lines,
explode persists exactly the five previewed codes (each line's first unit
reusing its pre-minted code verbatim), and a repeat explode creates zero
additional rows. -/
theorem worked_example_gen :
    synergyPreview stGen 10 [1, 2]
        = [{ lineId := 1, pfx := "GEN", qty := 2,
             codes := ["GEN-00001", "GEN-00002"], note := none },
           { lineId := 2, pfx := "GEN", qty := 3,
             codes := ["GEN-00003", "GEN-00004", "GEN-00005"],
             note := none }]
      ∧ (mintSynergy stGen 10 [] false).2.poLines.map
            (fun ln => ln.synergyId)
          = [some "GEN-00001", some "GEN-00002"]
      ∧ ((explodeByLine (mintSynergy stGen 10 [] false).2 10).2.items.map
            (fun it => it.synergyCode))
          = ["GEN-00001", "GEN-00003", "GEN-00002", "GEN-00004",
             "GEN-00005"]
      ∧ List.Perm
          ((explodeByLine (mintSynergy stGen 10 [] false).2 10).2.items.map
            (fun it => it.synergyCode))
          ["GEN-00001", "GEN-00002", "GEN-00003", "GEN-00004", "GEN-00005"]
      ∧ (explodeByLine (explodeByLine (mintSynergy stGen 10 [] false).2
            10).2 10).1.created = 0
      ∧ (explodeByLine (explodeByLine (mintSynergy stGen 10 [] false).2
            10).2 10).2.items
          = (explodeByLine (mintSynergy stGen 10 [] false).2 10).2.items :=
  ⟨by decide, by decide, by decide, by decide, by decide, by decide⟩

/-- Closed witness for the C9 theorem at a concrete state and prefix. -/
theorem prefix_peek_raises_name_error_witness :
    prefixPeek stGen "GEN"
        = Except.error (PyError.nameError "_get_starting_seq_for_prefix")
      ∧ prefixPeek stGen "GEN" ≠ Except.ok "GEN-00001" :=
  ⟨(prefix_peek_raises_name_error stGen "GEN").1,
   (prefix_peek_raises_name_error stGen "GEN").2 "GEN-00001"⟩
